import Mathlib

/-!
Verification development for the matchit pattern-matching core
(src/develop/matchit/patterns.h).

The template-metaprogramming core is embedded shallowly: the pattern kinds
become one inductive type, identifier cells become a store indexed by cell
number, and the per-kind matchPatternImpl / processIdImpl bodies become the
branches of the recursive matcher below.  The Context scratch buffer of the
source only materialises by-value temporaries so that nested patterns can
reference them by stable address; in a value semantics the temporaries are
passed directly, so the context parameter is dropped (it never influences a
match result).  The owned/borrowed distinction of ValueVariant is likewise
invisible to the matcher (both read back as the stored value); it is modelled
faithfully further below for the Id-object claims (C5, C8, C9, C10).
-/

namespace Matchit

/-- Scrutinee and capture values: integer scalars and sequences (iterable
ranges and array-like values).  A subrange capture is represented by the
sequence of elements it covers. -/
inductive Value where
  | int (n : Int)
  | seq (l : List Value)

mutual

/-- Host-language equality on values.  On sequences it mirrors the
Subrange operator== of the source: equal sizes and elementwise equality. -/
def Value.beq : Value → Value → Bool
  | .int m, .int n => m == n
  | .seq l, .seq m => Value.beqList l m
  | .int _, .seq _ => false
  | .seq _, .int _ => false
termination_by a b => sizeOf a + sizeOf b
decreasing_by all_goals (simp_wf
                         try simp
                         try omega)

def Value.beqList : List Value → List Value → Bool
  | [], [] => true
  | a :: as, b :: bs => Value.beq a b && Value.beqList as bs
  | [], _ :: _ => false
  | _ :: _, [] => false
termination_by l m => sizeOf l + sizeOf m
decreasing_by all_goals (simp_wf
                         try simp
                         try omega)

end

/-- Identifier-cell storage, Id::Block: the value slot (monostate vs a stored
value) and the recorded binding depth mDepth. -/
structure Block where
  var : Option Value
  dep : Int

/-- A default-constructed Block: empty slot, depth 0. -/
def Block.init : Block := { var := none, dep := 0 }

inductive IdProcess where
  | kCANCEL
  | kCONFIRM

/-- Id::Block::reset(depth): clear the slot and set mDepth to depth when
mDepth - depth >= 0. -/
def Block.reset (d : Int) (b : Block) : Block :=
  if b.dep - d ≥ 0 then { var := none, dep := d } else b

/-- Id::Block::confirm(depth): move mDepth to depth when mDepth > depth or
mDepth == 0. -/
def Block.confirm (d : Int) (b : Block) : Block :=
  if b.dep > d ∨ b.dep = 0 then { b with dep := d } else b

def procCell : IdProcess → Int → Block → Block
  | .kCANCEL, d, b => b.reset d
  | .kCONFIRM, d, b => b.confirm d

/-- Identifier cells are user-declared Id objects shared across clauses; the
matcher observes them through a store indexed by cell number. -/
def Store := Nat → Block

def setCell (σ : Store) (c : Nat) (b : Block) : Store :=
  fun x => if x = c then b else σ x

/-- Id::matchValue: a full cell compares the stored value against v with the
IdTraits equality (operator==); an empty cell binds v and succeeds.  mDepth is
not touched by matchValue itself. -/
def Id.matchValueStore (c : Nat) (v : Value) (σ : Store) : Bool × Store :=
  match (σ c).var with
  | some w => (Value.beq w v, σ)
  | none => (true, setCell σ c { σ c with var := some v })

/-- PatternTraits of Id, processIdImpl: kCANCEL resets the cell at the given
depth, kCONFIRM confirms it. -/
def processIdCell (c : Nat) (d : Int) (proc : IdProcess) (σ : Store) : Store :=
  setCell σ c (procCell proc d (σ c))

/-- The pattern algebra: one constructor per pattern kind of the source.
Meet predicates are functions of the scrutinee; PostCheck guards are nullary
closures that may read the identifier cells, hence functions of the store. -/
inductive Pattern where
  | lit (v : Value)
  | wildcard
  | meet (f : Value → Bool)
  | app (f : Value → Value) (p : Pattern)
  | or_ (ps : List Pattern)
  | and_ (ps : List Pattern)
  | not_ (p : Pattern)
  | id (c : Nat)
  | ooo
  | oooBind (c : Nat)
  | ds (ps : List Pattern)
  | postCheck (p : Pattern) (g : Store → Bool)

/-- isOooOrBinderV. -/
def isOooOrBinder : Pattern → Bool
  | .ooo => true
  | .oooBind _ => true
  | _ => false

/-- nbOooOrBinderV: number of splices among the direct sub-patterns. -/
def nbOoo : List Pattern → Nat
  | [] => 0
  | p :: ps => (if isOooOrBinder p then 1 else 0) + nbOoo ps

/-- findOooIdx: the sum over positions i of (i when the element is a splice,
else 0); with exactly one splice this is its index. -/
def findOooIdxAux : List Pattern → Nat → Nat
  | [], _ => 0
  | p :: ps, i => (if isOooOrBinder p then i else 0) + findOooIdxAux ps (i + 1)

def findOooIdx (ps : List Pattern) : Nat := findOooIdxAux ps 0

mutual

/-- The identifier cells a pattern references (the cells visited by
processId). -/
def refs : Pattern → List Nat
  | .lit _ => []
  | .wildcard => []
  | .meet _ => []
  | .app _ q => refs q
  | .or_ ps => refsList ps
  | .and_ ps => refsList ps
  | .not_ q => refs q
  | .id c => [c]
  | .ooo => []
  | .oooBind c => [c]
  | .ds ps => refsList ps
  | .postCheck q _ => refs q
termination_by p => 2 * sizeOf p + 1
decreasing_by all_goals (simp_wf
                         try simp
                         try omega)

def refsList : List Pattern → List Nat
  | [] => []
  | q :: qs => refs q ++ refsList qs
termination_by ps => 2 * sizeOf ps
decreasing_by all_goals (simp_wf
                         try simp
                         try omega)

end

mutual

/-- processId: traverse a pattern and cancel or confirm every identifier cell
it references (the processIdImpl bodies of the traits). -/
def processId (p : Pattern) (d : Int) (proc : IdProcess) (σ : Store) : Store :=
  match p with
  | .lit _ => σ
  | .wildcard => σ
  | .meet _ => σ
  | .app _ q => processId q d proc σ
  | .or_ ps => processIdList ps d proc σ
  | .and_ ps => processIdList ps d proc σ
  | .not_ q => processId q d proc σ
  | .id c => processIdCell c d proc σ
  | .ooo => σ
  | .oooBind c => processIdCell c d proc σ
  | .ds ps => processIdList ps d proc σ
  | .postCheck q _ => processId q d proc σ
termination_by 2 * sizeOf p + 1
decreasing_by all_goals (simp_wf
                         try simp
                         try omega)

def processIdList (ps : List Pattern) (d : Int) (proc : IdProcess) (σ : Store) : Store :=
  match ps with
  | [] => σ
  | q :: qs => processIdList qs d proc (processId q d proc σ)
termination_by 2 * sizeOf ps
decreasing_by all_goals (simp_wf
                         try simp
                         try omega)

end

/-- Size bound used by the termination argument of the matcher. -/
def sizeOfTakeLe : ∀ (n : Nat) (l : List Pattern), sizeOf (l.take n) ≤ sizeOf l := by
  intro n l
  induction l generalizing n with
  | nil => cases n <;> simp [List.take]
  | cons p ps ih =>
    cases n with
    | zero =>
      simp only [List.take, List.nil.sizeOf_spec, List.cons.sizeOf_spec]
      omega
    | succ m =>
      have h := ih m
      simp only [List.take, List.cons.sizeOf_spec]
      omega

/-- Size bound used by the termination argument of the matcher. -/
def sizeOfDropLe : ∀ (n : Nat) (l : List Pattern), sizeOf (l.drop n) ≤ sizeOf l := by
  intro n l
  induction l generalizing n with
  | nil => cases n <;> simp [List.drop]
  | cons p ps ih =>
    cases n with
    | zero => simp
    | succ m =>
      have h := ih m
      simp only [List.drop, List.cons.sizeOf_spec]
      omega

mutual

/-- matchPattern: run the per-kind matchPatternImpl, then processId the
pattern with kCONFIRM on success and kCANCEL on failure. -/
def matchPattern (v : Value) (p : Pattern) (d : Int) (σ : Store) : Bool × Store :=
  let res := matchPatternImpl v p d σ
  (res.1, processId p d (if res.1 then .kCONFIRM else .kCANCEL) res.2)
termination_by 8 * sizeOf p + 3
decreasing_by all_goals (simp_wf
                         try simp
                         try omega)

/-- The matchPatternImpl bodies of the PatternTraits, one branch per kind. -/
def matchPatternImpl (v : Value) (p : Pattern) (d : Int) (σ : Store) : Bool × Store :=
  match p with
  | .lit w => (Value.beq w v, σ)
  | .wildcard => (true, σ)
  | .meet f => (f v, σ)
  | .app f q => matchPattern (f v) q (d + 1) σ
  | .or_ ps => matchOr v ps d σ
  | .and_ ps => matchAnd v ps d σ
  | .not_ q =>
    let res := matchPattern v q (d + 1) σ
    (!res.1, res.2)
  | .id c => Id.matchValueStore c v σ
  | .ooo => (true, σ)
  | .oooBind c =>
    -- OooBinder forwards to matchPattern on the inner Id at depth+1;
    -- that inner call runs processId on the cell itself.
    let res := Id.matchValueStore c v σ
    (res.1, processIdCell c (d + 1) (if res.1 then .kCONFIRM else .kCANCEL) res.2)
  | .postCheck q g =>
    let res := matchPattern v q (d + 1) σ
    if res.1 then (g res.2, res.2) else (false, res.2)
  | .ds ps => matchDs v ps d σ
termination_by 8 * sizeOf p + 2
decreasing_by all_goals (simp_wf
                         try simp
                         try omega)

/-- Or: children tried left to right at depth+1, first success wins. -/
def matchOr (v : Value) (ps : List Pattern) (d : Int) (σ : Store) : Bool × Store :=
  match ps with
  | [] => (false, σ)
  | q :: qs =>
    let res := matchPattern v q (d + 1) σ
    if res.1 then res else matchOr v qs d res.2
termination_by 8 * sizeOf ps
decreasing_by all_goals (simp_wf
                         try simp
                         try omega)

/-- And: children matched left to right at depth+1 against the same value,
short-circuiting on the first failure. -/
def matchAnd (v : Value) (ps : List Pattern) (d : Int) (σ : Store) : Bool × Store :=
  match ps with
  | [] => (true, σ)
  | q :: qs =>
    let res := matchPattern v q (d + 1) σ
    if res.1 then matchAnd v qs d res.2 else (false, res.2)
termination_by 8 * sizeOf ps
decreasing_by all_goals (simp_wf
                         try simp
                         try omega)

/-- matchPatternRange: fold of matchPattern over paired elements and
sub-patterns at depth+1, short-circuiting on failure.  Call sites always pass
lists of equal length (the index_sequence of the static size). -/
def matchSeq (l : List Value) (ps : List Pattern) (d : Int) (σ : Store) : Bool × Store :=
  match ps, l with
  | [], _ => (true, σ)
  | _ :: _, [] => (true, σ)
  | q :: qs, w :: ws =>
    let res := matchPattern w q (d + 1) σ
    if res.1 then matchSeq ws qs d res.2 else (false, res.2)
termination_by 8 * sizeOf ps
decreasing_by all_goals (simp_wf
                         try simp
                         try omega)

/-- PatternTraits of Ds, matchPatternImpl, range overload.  The index
arithmetic follows the source: with one splice at idxOoo, the first idxOoo
sub-patterns are matched against the first idxOoo elements, a binding splice
materialises the subrange of valLen - (patLen - 1) elements starting at
idxOoo, and the remaining sub-patterns are matched from the element at
idxOoo + (valLen - patLen + 1).  The source computes valLen - patLen + 1 in
size_t, whose wraparound makes it valLen + 1 - patLen even when
valLen = patLen - 1; the Nat expression below uses that form. -/
def matchDs (v : Value) (ps : List Pattern) (d : Int) (σ : Store) : Bool × Store :=
  match v with
  | .int _ => (false, σ)
  | .seq l =>
    if nbOoo ps = 0 then
      -- size mismatch for a dynamic range is not an error, just a failed match
      if l.length ≠ ps.length then (false, σ)
      else matchSeq l ps d σ
    else if nbOoo ps = 1 then
      if l.length < ps.length - 1 then (false, σ)
      else
        let res1 := matchSeq (l.take (findOooIdx ps)) (ps.take (findOooIdx ps)) d σ
        match ps.getD (findOooIdx ps) .ooo with
        | .oooBind c =>
          let res2 :=
            if res1.1 then
              -- inlined matchPattern(subrange, OooBinder, depth): the binder
              -- forwards to the inner Id at depth+1 (whose matchPattern runs
              -- processId on the cell at depth+1), and the outer call then
              -- runs processId on the binder at depth
              let slice := Value.seq ((l.drop (findOooIdx ps)).take (l.length - (ps.length - 1)))
              let r := Id.matchValueStore c slice res1.2
              let σa := processIdCell c (d + 1) (if r.1 then .kCONFIRM else .kCANCEL) r.2
              (r.1, processIdCell c d (if r.1 then .kCONFIRM else .kCANCEL) σa)
            else (false, res1.2)
          if res2.1 then
            matchSeq (l.drop (findOooIdx ps + (l.length + 1 - ps.length)))
              (ps.drop (findOooIdx ps + 1)) d res2.2
          else (false, res2.2)
        | _ =>
          if res1.1 then
            matchSeq (l.drop (findOooIdx ps + (l.length + 1 - ps.length)))
              (ps.drop (findOooIdx ps + 1)) d res1.2
          else (false, res1.2)
    else (false, σ)  -- rejected by static_assert in the source
termination_by 8 * sizeOf ps + 1
decreasing_by
  all_goals simp_wf
  all_goals
    (first
      | omega
      | (have h1 := sizeOfTakeLe (findOooIdx ps) ps
         have h2 := sizeOfDropLe (findOooIdx ps + 1) ps
         omega))

end

/-- A pattern-action clause.  The handler of the source is a nullary closure
that may read the identifier cells; it is modelled as a function of the
store. -/
structure Clause (α : Type) where
  pat : Pattern
  act : Store → α

/-- The clause fold inside matchPatterns: try each clause in order; on the
first match execute its action while captures are live, then cancel the
pattern at depth 0.  The final List component records the results of the
actions that were executed (instrumentation witnessing which actions ran). -/
def matchClauses {α : Type} (v : Value) (cls : List (Clause α)) (σ : Store) :
    Option α × Store × List α :=
  match cls with
  | [] => (none, σ, [])
  | cl :: rest =>
    let res := matchPattern v cl.pat 0 σ
    if res.1 then
      let a := cl.act res.2
      (some a, processId cl.pat 0 .kCANCEL res.2, [a])
    else matchClauses v rest res.2

/-- matchPatterns, expression form: the action result of the first matching
clause, or the NoMatch logic_error when no clause matches. -/
def matchPatterns {α : Type} (v : Value) (cls : List (Clause α)) (σ : Store) :
    Except String α × Store :=
  match matchClauses v cls σ with
  | (some a, σ2, _) => (.ok a, σ2)
  | (none, σ2, _) => (.error "Error: no patterns got matched!", σ2)

/-!
The Id object itself, modelled at full fidelity for the claims about cell
operations: ValueVariant keeps the owned/borrowed split (a borrow is modelled
by the pointee it refers to), the throwing accessors return Except, and the
copy constructor is modelled with an explicit block store so that aliasing is
observable.
-/

/-- ValueVariant: monostate, an owned value, or a borrowed pointer
(represented by the pointee). -/
inductive ValueVariant (α : Type) where
  | monostate
  | owned (v : α)
  | borrowed (v : α)

/-- Id::Block, generic in the captured type. -/
structure IdBlock (α : Type) where
  mVariant : ValueVariant α
  mDepth : Int

def IdBlock.hasValue {α : Type} (b : IdBlock α) : Bool :=
  match b.mVariant with
  | .monostate => false
  | .owned _ => true
  | .borrowed _ => true

/-- Id::Block::value: read the captured value; throws on an empty cell. -/
def IdBlock.value {α : Type} (b : IdBlock α) : Except String α :=
  match b.mVariant with
  | .owned v => .ok v
  | .borrowed v => .ok v
  | .monostate => .error "invalid state!"

/-- Id::Block::mutableValue: a borrow cannot yield an owned mutable
reference. -/
def IdBlock.mutableValue {α : Type} (b : IdBlock α) : Except String α :=
  match b.mVariant with
  | .owned v => .ok v
  | .borrowed _ => .error "Cannot get mutableValue for pointer type!"
  | .monostate => .error "Invalid state!"

/-- Id::Block::reset(depth). -/
def IdBlock.reset {α : Type} (d : Int) (b : IdBlock α) : IdBlock α :=
  if b.mDepth - d ≥ 0 then { mVariant := .monostate, mDepth := d } else b

/-- Id::Block::confirm(depth). -/
def IdBlock.confirm {α : Type} (d : Int) (b : IdBlock α) : IdBlock α :=
  if b.mDepth > d ∨ b.mDepth = 0 then { b with mDepth := d } else b

/-- Id::matchValue with the overridable IdTraits equality and the
StorePointer decision (borrow a non-scalar lvalue, otherwise copy or move)
passed in as parameters. -/
def IdBlock.matchValue {α : Type} (equal : α → α → Bool) (storePtr : Bool)
    (b : IdBlock α) (v : α) : Bool × IdBlock α :=
  match b.mVariant with
  | .owned w => (equal w v, b)
  | .borrowed w => (equal w v, b)
  | .monostate =>
    (true, { b with mVariant := if storePtr then .borrowed v else .owned v })

/-- Id::mBlock: an Id either owns its block or holds a pointer to the block
of the Id it was copied from. -/
inductive BlockVT where
  | own
  | ptrTo (a : Nat)

/-- An Id object: the address where its own inline block lives, and its
mBlock alternative. -/
structure IdObj where
  addr : Nat
  mBlock : BlockVT

/-- A default-constructed Id owning its block. -/
def IdObj.mkOwn (a : Nat) : IdObj := { addr := a, mBlock := .own }

/-- Id::block(): the address of the underlying block after resolving the
pointer alternative. -/
def IdObj.blockAddr : IdObj → Nat
  | { addr := a, mBlock := .own } => a
  | { addr := _, mBlock := .ptrTo b } => b

/-- The Id copy constructor: mBlock = BlockVT(address of id.block()). -/
def IdObj.copy (x : IdObj) (newAddr : Nat) : IdObj :=
  { addr := newAddr, mBlock := .ptrTo x.blockAddr }

/-- The blocks of all live Id objects, indexed by address. -/
def IdStore (α : Type) := Nat → IdBlock α

def setIdBlock {α : Type} (σ : IdStore α) (a : Nat) (b : IdBlock α) : IdStore α :=
  fun x => if x = a then b else σ x

/-- Id::matchValue performed through an Id object on the shared store. -/
def IdObj.matchValueS {α : Type} (equal : α → α → Bool) (storePtr : Bool)
    (x : IdObj) (v : α) (σ : IdStore α) : Bool × IdStore α :=
  let r := IdBlock.matchValue equal storePtr (σ x.blockAddr) v
  (r.1, setIdBlock σ x.blockAddr r.2)

/-- Id::reset through an Id object. -/
def IdObj.resetS {α : Type} (x : IdObj) (d : Int) (σ : IdStore α) : IdStore α :=
  setIdBlock σ x.blockAddr (IdBlock.reset d (σ x.blockAddr))

/-- Id::confirm through an Id object. -/
def IdObj.confirmS {α : Type} (x : IdObj) (d : Int) (σ : IdStore α) : IdStore α :=
  setIdBlock σ x.blockAddr (IdBlock.confirm d (σ x.blockAddr))

/-- Id::hasValue through an Id object. -/
def IdObj.hasValueS {α : Type} (x : IdObj) (σ : IdStore α) : Bool :=
  (σ x.blockAddr).hasValue

/-- Id::value through an Id object. -/
def IdObj.valueS {α : Type} (x : IdObj) (σ : IdStore α) : Except String α :=
  (σ x.blockAddr).value

/-- Per-cell abstraction of everything a match at depth D may do to one cell:
it may leave it alone, write a depth at least D into it, or bind an empty
cell whose recorded depth is nonzero (and then the depth survives
unchanged).  This is the invariant behind capture rollback. -/
def TD (D : Int) (b b2 : Block) : Prop :=
  b2 = b ∨ D ≤ b2.dep ∨ (b.var = none ∧ b2.dep = b.dep ∧ b.dep ≠ 0)

/-- Per-pattern invariant about matchPatternImpl: cells it does not reference
are untouched, and every cell moves within TD, except that the pattern may be
a bare identifier which binds its own cell without an adjoining processId
step (the enclosing matchPattern immediately confirms it). -/
def MIfact (p : Pattern) : Prop :=
  ∀ (v : Value) (d : Int) (σ : Store),
    (∀ c, c ∉ refs p → (matchPatternImpl v p d σ).2 c = σ c)
    ∧ (∀ c, TD d (σ c) ((matchPatternImpl v p d σ).2 c)
        ∨ ((σ c).var = none ∧ ((matchPatternImpl v p d σ).2 c).dep = (σ c).dep
            ∧ (matchPatternImpl v p d σ).1 = true ∧ c ∈ refs p))

def MPfact (p : Pattern) : Prop :=
  ∀ (v : Value) (d : Int) (σ : Store),
    (∀ c, c ∉ refs p → (matchPattern v p d σ).2 c = σ c)
    ∧ (∀ c, TD d (σ c) ((matchPattern v p d σ).2 c))

def MOfact (ps : List Pattern) : Prop :=
  ∀ (v : Value) (d : Int) (σ : Store),
    (∀ c, c ∉ refsList ps → (matchOr v ps d σ).2 c = σ c)
    ∧ (∀ c, TD d (σ c) ((matchOr v ps d σ).2 c))

def MAfact (ps : List Pattern) : Prop :=
  ∀ (v : Value) (d : Int) (σ : Store),
    (∀ c, c ∉ refsList ps → (matchAnd v ps d σ).2 c = σ c)
    ∧ (∀ c, TD d (σ c) ((matchAnd v ps d σ).2 c))

def MSfact (ps : List Pattern) : Prop :=
  ∀ (l : List Value) (d : Int) (σ : Store),
    (∀ c, c ∉ refsList ps → (matchSeq l ps d σ).2 c = σ c)
    ∧ (∀ c, TD d (σ c) ((matchSeq l ps d σ).2 c))

def MDfact (ps : List Pattern) : Prop :=
  ∀ (v : Value) (d : Int) (σ : Store),
    (∀ c, c ∉ refsList ps → (matchDs v ps d σ).2 c = σ c)
    ∧ (∀ c, TD d (σ c) ((matchDs v ps d σ).2 c))

/-- All identifier cells empty with nonnegative recorded depths: the state of
user-declared cells on entry to the driver. -/
def allEmpty (σ : Store) : Prop := ∀ c, (σ c).var = none ∧ 0 ≤ (σ c).dep

/-! ## Theorems -/

/-- C8: the cell reset rule of Id::Block::reset: when the recorded depth is at
least the requested depth the value slot is cleared and the recorded depth
becomes the requested depth; otherwise both are unchanged. -/
theorem cell_reset_rule {α : Type} (b : IdBlock α) (d : Int) :
    (d ≤ b.mDepth → IdBlock.reset d b = { mVariant := .monostate, mDepth := d })
    ∧ (b.mDepth < d → IdBlock.reset d b = b) := by
  constructor
  · intro h
    simp only [IdBlock.reset]
    rw [if_pos (by omega)]
  · intro h
    simp only [IdBlock.reset]
    rw [if_neg (by omega)]

theorem cell_reset_rule_inst :
    IdBlock.reset 1 ({ mVariant := .owned 5, mDepth := 2 } : IdBlock Nat)
      = { mVariant := .monostate, mDepth := 1 }
    ∧ IdBlock.reset 3 ({ mVariant := .owned 5, mDepth := 2 } : IdBlock Nat)
      = { mVariant := .owned 5, mDepth := 2 } :=
  ⟨(cell_reset_rule { mVariant := .owned 5, mDepth := 2 } 1).1 (by norm_num),
   (cell_reset_rule { mVariant := .owned 5, mDepth := 2 } 3).2 (by norm_num)⟩

/-- C9: reading value() from an empty cell and mutableValue() from a borrowed
cell raise errors immediately; value() on a bound cell returns the captured
value without error. -/
theorem invalid_identifier_read {α : Type} (b : IdBlock α) :
    (b.mVariant = .monostate → b.value = .error "invalid state!")
    ∧ (∀ w, b.mVariant = .borrowed w →
        b.mutableValue = .error "Cannot get mutableValue for pointer type!")
    ∧ (∀ w, b.mVariant = .owned w → b.value = .ok w)
    ∧ (∀ w, b.mVariant = .borrowed w → b.value = .ok w) := by
  refine ⟨fun h => ?_, fun w h => ?_, fun w h => ?_, fun w h => ?_⟩ <;>
    simp [IdBlock.value, IdBlock.mutableValue, h]

theorem invalid_identifier_read_inst :
    ({ mVariant := .monostate, mDepth := 0 } : IdBlock Nat).value = .error "invalid state!"
    ∧ ({ mVariant := .borrowed 7, mDepth := 0 } : IdBlock Nat).mutableValue
        = .error "Cannot get mutableValue for pointer type!"
    ∧ ({ mVariant := .owned 7, mDepth := 0 } : IdBlock Nat).value = .ok 7 :=
  ⟨(invalid_identifier_read { mVariant := .monostate, mDepth := 0 }).1 rfl,
   (invalid_identifier_read { mVariant := .borrowed 7, mDepth := 0 }).2.1 7 rfl,
   (invalid_identifier_read { mVariant := .owned 7, mDepth := 0 }).2.2.1 7 rfl⟩

/-- C5: Id::matchValue on an empty cell stores the value (as a borrow or a
copy per the StorePointer decision) and succeeds; on a full cell it succeeds
exactly when the stored value equals the scrutinee under the overridable
IdTraits equality, and the cell (value slot and depth) is not modified. -/
theorem id_match_value_rule {α : Type} (equal : α → α → Bool) (storePtr : Bool)
    (b : IdBlock α) (v : α) :
    (b.mVariant = .monostate →
      IdBlock.matchValue equal storePtr b v =
        (true, { b with mVariant := if storePtr then .borrowed v else .owned v }))
    ∧ (∀ w, b.mVariant = .owned w →
        IdBlock.matchValue equal storePtr b v = (equal w v, b))
    ∧ (∀ w, b.mVariant = .borrowed w →
        IdBlock.matchValue equal storePtr b v = (equal w v, b)) := by
  refine ⟨fun h => ?_, fun w h => ?_, fun w h => ?_⟩ <;>
    simp [IdBlock.matchValue, h]

theorem id_match_value_rule_inst :
    IdBlock.matchValue (fun a b => a == b) false
        ({ mVariant := .monostate, mDepth := 0 } : IdBlock Nat) 4
      = (true, { mVariant := .owned 4, mDepth := 0 })
    ∧ IdBlock.matchValue (fun a b => a == b) false
        ({ mVariant := .owned 4, mDepth := 0 } : IdBlock Nat) 9
      = ((4 : Nat) == 9, { mVariant := .owned 4, mDepth := 0 }) :=
  ⟨by
    have h := (id_match_value_rule (fun a b => a == b) false
      ({ mVariant := .monostate, mDepth := 0 } : IdBlock Nat) 4).1 rfl
    simpa using h,
   (id_match_value_rule (fun a b => a == b) false
      ({ mVariant := .owned 4, mDepth := 0 } : IdBlock Nat) 9).2.1 4 rfl⟩

/-- C10: an Id copy shares the block of the Id it was copied from: every
operation through the copy reads and mutates exactly the state the original
sees, and in particular after a matchValue through the copy the original
observes a bound cell. -/
theorem id_copy_aliases_block {α : Type} (x : IdObj) (a : Nat)
    (equal : α → α → Bool) (storePtr : Bool) (v : α) (σ : IdStore α) (d : Int) :
    (x.copy a).blockAddr = x.blockAddr
    ∧ IdObj.matchValueS equal storePtr (x.copy a) v σ
        = IdObj.matchValueS equal storePtr x v σ
    ∧ IdObj.resetS (x.copy a) d σ = IdObj.resetS x d σ
    ∧ IdObj.confirmS (x.copy a) d σ = IdObj.confirmS x d σ
    ∧ IdObj.hasValueS (x.copy a) σ = IdObj.hasValueS x σ
    ∧ IdObj.valueS (x.copy a) σ = IdObj.valueS x σ
    ∧ IdObj.hasValueS x (IdObj.matchValueS equal storePtr (x.copy a) v σ).2 = true := by
  have hb : (x.copy a).blockAddr = x.blockAddr := rfl
  refine ⟨hb, ?_, ?_, ?_, ?_, ?_, ?_⟩ <;>
    simp only [IdObj.matchValueS, IdObj.resetS, IdObj.confirmS, IdObj.hasValueS,
      IdObj.valueS, hb]
  simp only [setIdBlock, if_pos rfl]
  cases hv : (σ x.blockAddr).mVariant <;>
    simp [IdBlock.matchValue, IdBlock.hasValue, hv] <;>
    cases storePtr <;> simp

/-- The driver state after trying a failing prefix of clauses: appending more
clauses continues from that state. -/
theorem matchClauses_append_none {α : Type} (v : Value) (pre rest : List (Clause α))
    (σ : Store) (h : (matchClauses v pre σ).1 = none) :
    matchClauses v (pre ++ rest) σ = matchClauses v rest (matchClauses v pre σ).2.1 := by
  induction pre generalizing σ with
  | nil => simp [matchClauses]
  | cons cl pre ih =>
    simp only [matchClauses, List.cons_append] at h ⊢
    cases hres : (matchPattern v cl.pat 0 σ).1 with
    | true => simp [hres] at h
    | false =>
      simp only [hres, Bool.false_eq_true, if_false] at h ⊢
      exact ih _ h

/-- C2: ordered first match.  If every clause before cl fails and the pattern
of cl matches, then the expression-form driver returns the action result of
cl evaluated on the post-match store, and the list of executed actions is
exactly that one action: clauses are tried in source order and exactly one
action runs. -/
theorem ordered_first_match {α : Type} (v : Value) (pre post : List (Clause α))
    (cl : Clause α) (σ : Store)
    (hpre : (matchClauses v pre σ).1 = none)
    (hcl : (matchPattern v cl.pat 0 (matchClauses v pre σ).2.1).1 = true) :
    (matchPatterns v (pre ++ cl :: post) σ).1 =
      .ok (cl.act (matchPattern v cl.pat 0 (matchClauses v pre σ).2.1).2)
    ∧ (matchClauses v (pre ++ cl :: post) σ).2.2 =
      [cl.act (matchPattern v cl.pat 0 (matchClauses v pre σ).2.1).2] := by
  have ha := matchClauses_append_none v pre (cl :: post) σ hpre
  constructor
  · simp only [matchPatterns, ha]
    simp [matchClauses, hcl]
  · rw [ha]
    simp [matchClauses, hcl]

theorem ordered_first_match_inst :
    (matchPatterns (Value.int 7)
        [Clause.mk Pattern.wildcard (fun _ => (3 : Nat))] (fun _ => Block.init)).1
      = .ok 3
    ∧ (matchClauses (Value.int 7)
        [Clause.mk Pattern.wildcard (fun _ => (3 : Nat))] (fun _ => Block.init)).2.2
      = [3] := by
  have h := ordered_first_match (Value.int 7) [] []
    (Clause.mk Pattern.wildcard (fun _ => (3 : Nat))) (fun _ => Block.init)
    rfl (by simp [matchClauses, matchPattern, matchPatternImpl])
  simpa using h

/-- C4 (amended): when no clause of an expression-form match satisfies the
scrutinee, the driver throws the logic_error whose message is
"Error: no patterns got matched!". -/
theorem no_match_signal {α : Type} (v : Value) (cls : List (Clause α)) (σ : Store)
    (h : (matchClauses v cls σ).1 = none) :
    (matchPatterns v cls σ).1 = .error "Error: no patterns got matched!" := by
  rcases hm : matchClauses v cls σ with ⟨o, σ2, log⟩
  rw [hm] at h
  simp only at h
  subst h
  simp [matchPatterns, hm]

theorem no_match_signal_inst :
    (matchClauses (Value.int 99)
        [Clause.mk (Pattern.lit (Value.int 1)) (fun _ => (10 : Nat)),
         Clause.mk (Pattern.lit (Value.int 2)) (fun _ => (20 : Nat))]
        (fun _ => Block.init)).1 = none
    ∧ (matchPatterns (Value.int 99)
        [Clause.mk (Pattern.lit (Value.int 1)) (fun _ => (10 : Nat)),
         Clause.mk (Pattern.lit (Value.int 2)) (fun _ => (20 : Nat))]
        (fun _ => Block.init)).1 = .error "Error: no patterns got matched!" := by
  have h1 : (matchClauses (Value.int 99)
      [Clause.mk (Pattern.lit (Value.int 1)) (fun _ => (10 : Nat)),
       Clause.mk (Pattern.lit (Value.int 2)) (fun _ => (20 : Nat))]
      (fun _ => Block.init)).1 = none := by
    simp [matchClauses, matchPattern, matchPatternImpl, Value.beq, processId]
  exact ⟨h1, no_match_signal _ _ _ h1⟩

/-- When a pattern list has no splice, every summand of findOooIdxAux is 0. -/
theorem findOooIdxAux_eq_zero (ps : List Pattern) (h : nbOoo ps = 0) :
    ∀ i, findOooIdxAux ps i = 0 := by
  induction ps with
  | nil => intro i; rfl
  | cons p ps ih =>
    intro i
    simp only [nbOoo] at h
    by_cases hp : isOooOrBinder p
    · simp [hp] at h
    · simp [hp] at h
      simpa [findOooIdxAux, hp] using ih h (i + 1)

theorem findOooIdxAux_lt (ps : List Pattern) (h : nbOoo ps = 1) :
    ∀ i, findOooIdxAux ps i < i + ps.length := by
  induction ps with
  | nil => simp [nbOoo] at h
  | cons p ps ih =>
    intro i
    simp only [nbOoo] at h
    by_cases hp : isOooOrBinder p
    · simp only [hp, if_true] at h
      have hps : nbOoo ps = 0 := by omega
      simp only [findOooIdxAux, if_pos hp, findOooIdxAux_eq_zero ps hps (i + 1)]
      simp only [List.length_cons]
      omega
    · simp [hp] at h
      have := ih h (i + 1)
      simp only [findOooIdxAux, if_neg hp, List.length_cons]
      omega

/-- With exactly one splice, findOooIdx is a valid index. -/
theorem findOooIdx_lt_length (ps : List Pattern) (h : nbOoo ps = 1) :
    findOooIdx ps < ps.length := by
  have := findOooIdxAux_lt ps h 0
  simpa [findOooIdx] using this

/-- A pattern list with exactly one splice is nonempty. -/
theorem nbOoo_one_length_pos (ps : List Pattern) (h : nbOoo ps = 1) :
    1 ≤ ps.length := by
  cases ps with
  | nil => simp [nbOoo] at h
  | cons p ps => simp

/-- A successful matchSeq is a sequential conjunction: the fold returns true
exactly when every sub-pattern matches its positional element, each step run
on the store left by the previous steps. -/
theorem matchSeq_true_iff (ps : List Pattern) :
    ∀ (l : List Value) (d : Int) (σ : Store), l.length = ps.length →
    ((matchSeq l ps d σ).1 = true ↔
      ∀ i, i < ps.length →
        (matchPattern (l.getD i (.int 0)) (ps.getD i .wildcard) (d + 1)
          ((matchSeq (l.take i) (ps.take i) d σ).2)).1 = true) := by
  induction ps with
  | nil =>
    intro l d σ hlen
    have : l = [] := List.length_eq_zero.mp (by simpa using hlen)
    subst this
    simp [matchSeq]
  | cons q qs ih =>
    intro l d σ hlen
    cases l with
    | nil => simp at hlen
    | cons w ws =>
      have hlen2 : ws.length = qs.length := by simpa using hlen
      simp only [matchSeq]
      cases hres : (matchPattern w q (d + 1) σ).1 with
      | false =>
        apply iff_of_false
        · simp [hres]
        · intro hall
          have h0 := hall 0 (by simp)
          simp only [List.getD_cons_zero, List.take, matchSeq] at h0
          rw [hres] at h0
          exact Bool.false_ne_true h0
      | true =>
        simp only [hres, if_true]
        rw [ih ws d (matchPattern w q (d + 1) σ).2 hlen2]
        constructor
        · intro hall i hi
          cases i with
          | zero =>
            simpa [matchSeq] using hres
          | succ i =>
            have := hall i (by simpa using hi)
            simpa [matchSeq, hres] using this
        · intro hall i hi
          have := hall (i + 1) (by simpa using hi)
          simpa [matchSeq, hres] using this

/-- C6: a splice-free destructure over an iterable scrutinee fails when the
size differs from the number of sub-patterns, and otherwise succeeds exactly
when every sub-pattern matches its positional element (left to right, each
step on the store produced by the previous steps). -/
theorem ds_no_splice_size_law (ps : List Pattern) (l : List Value) (d : Int)
    (σ : Store) (h0 : nbOoo ps = 0) :
    (l.length ≠ ps.length → matchDs (.seq l) ps d σ = (false, σ))
    ∧ (l.length = ps.length →
        matchDs (.seq l) ps d σ = matchSeq l ps d σ
        ∧ ((matchSeq l ps d σ).1 = true ↔
            ∀ i, i < ps.length →
              (matchPattern (l.getD i (.int 0)) (ps.getD i .wildcard) (d + 1)
                ((matchSeq (l.take i) (ps.take i) d σ).2)).1 = true)) := by
  constructor
  · intro hne
    simp [matchDs, h0, hne]
  · intro hlen
    refine ⟨by simp [matchDs, h0, hlen], matchSeq_true_iff ps l d σ hlen⟩

theorem ds_no_splice_size_law_inst :
    nbOoo [Pattern.lit (Value.int 1), Pattern.wildcard] = 0
    ∧ matchDs (Value.seq [Value.int 1, Value.int 5])
        [Pattern.lit (Value.int 1), Pattern.wildcard] 0 (fun _ => Block.init)
      = matchSeq [Value.int 1, Value.int 5]
          [Pattern.lit (Value.int 1), Pattern.wildcard] 0 (fun _ => Block.init)
    ∧ matchDs (Value.seq [Value.int 1])
        [Pattern.lit (Value.int 1), Pattern.wildcard] 0 (fun _ => Block.init)
      = (false, fun _ => Block.init) := by
  have h := ds_no_splice_size_law [Pattern.lit (Value.int 1), Pattern.wildcard]
    [Value.int 1, Value.int 5] 0 (fun _ => Block.init) rfl
  have h2 := ds_no_splice_size_law [Pattern.lit (Value.int 1), Pattern.wildcard]
    [Value.int 1] 0 (fun _ => Block.init) rfl
  exact ⟨rfl, (h.2 rfl).1, h2.1 (by norm_num)⟩

/-- C3: the Ds splice length law over an iterable scrutinee of length L with
exactly one splice at index k among n sub-patterns.  If L < n - 1 the match
fails.  Otherwise the splice covers exactly L - (n - 1) elements, namely the
elements at positions k through k + (L - n): the head sub-patterns consume
elements 0..k-1, a binding splice matches the identifier cell against the
subrange of those L - (n - 1) elements, and the tail sub-patterns consume the
elements from position k + (L - (n - 1)) on. -/
theorem ds_splice_length_law (ps : List Pattern) (l : List Value) (d : Int)
    (σ : Store) (c : Nat) (k : Nat) (hn : nbOoo ps = 1) (hk : k = findOooIdx ps) :
    (l.length < ps.length - 1 → matchDs (.seq l) ps d σ = (false, σ))
    ∧ (ps.length - 1 ≤ l.length →
        (((l.drop k).take (l.length - (ps.length - 1))).length
            = l.length - (ps.length - 1))
        ∧ (∀ j, j < l.length - (ps.length - 1) →
            ((l.drop k).take (l.length - (ps.length - 1)))[j]? = l[k + j]?)
        ∧ (ps.getD k .ooo = .oooBind c →
            matchDs (.seq l) ps d σ =
              (let r1 := matchSeq (l.take k) (ps.take k) d σ
               let r2 :=
                 if r1.1 then
                   let r := Id.matchValueStore c
                     (Value.seq ((l.drop k).take (l.length - (ps.length - 1)))) r1.2
                   let σa := processIdCell c (d + 1)
                     (if r.1 then .kCONFIRM else .kCANCEL) r.2
                   (r.1, processIdCell c d (if r.1 then .kCONFIRM else .kCANCEL) σa)
                 else (false, r1.2)
               if r2.1 then
                 matchSeq (l.drop (k + (l.length - (ps.length - 1))))
                   (ps.drop (k + 1)) d r2.2
               else (false, r2.2)))
        ∧ (ps.getD k .ooo = .ooo →
            matchDs (.seq l) ps d σ =
              (let r1 := matchSeq (l.take k) (ps.take k) d σ
               if r1.1 then
                 matchSeq (l.drop (k + (l.length - (ps.length - 1))))
                   (ps.drop (k + 1)) d r1.2
               else (false, r1.2)))) := by
  have hpos : 1 ≤ ps.length := nbOoo_one_length_pos ps hn
  have hklt : k < ps.length := hk ▸ findOooIdx_lt_length ps hn
  constructor
  · intro hlt
    simp only [matchDs]
    rw [if_neg (by omega), if_pos hn, if_pos hlt]
  · intro hge
    have harith : l.length + 1 - ps.length = l.length - (ps.length - 1) := by omega
    refine ⟨?_, ?_, ?_, ?_⟩
    · simp only [List.length_take, List.length_drop]
      omega
    · intro j hj
      rw [List.getElem?_take_of_lt hj, List.getElem?_drop]
    · intro hb
      simp only [matchDs]
      rw [if_neg (by omega), if_pos hn, if_neg (by omega), ← hk, hb, harith]
    · intro hb
      simp only [matchDs]
      rw [if_neg (by omega), if_pos hn, if_neg (by omega), ← hk, hb, harith]

theorem ds_splice_length_law_inst :
    nbOoo [Pattern.lit (Value.int 10), Pattern.oooBind 0, Pattern.lit (Value.int 50)] = 1
    ∧ (1 : Nat) = findOooIdx
        [Pattern.lit (Value.int 10), Pattern.oooBind 0, Pattern.lit (Value.int 50)]
    ∧ (([Value.int 10, Value.int 20, Value.int 30, Value.int 40, Value.int 50].drop 1).take
        ([Value.int 10, Value.int 20, Value.int 30, Value.int 40, Value.int 50].length
          - ([Pattern.lit (Value.int 10), Pattern.oooBind 0,
              Pattern.lit (Value.int 50)].length - 1))).length = 3 := by
  have h := ds_splice_length_law
    [Pattern.lit (Value.int 10), Pattern.oooBind 0, Pattern.lit (Value.int 50)]
    [Value.int 10, Value.int 20, Value.int 30, Value.int 40, Value.int 50]
    0 (fun _ => Block.init) 0 1 rfl rfl
  refine ⟨rfl, rfl, ?_⟩
  have h2 := (h.2 (by norm_num)).1
  simpa using h2

theorem procCell_idem (proc : IdProcess) (d : Int) (b : Block) :
    procCell proc d (procCell proc d b) = procCell proc d b := by
  obtain ⟨bv, bd⟩ := b
  cases proc <;> simp only [procCell, Block.reset, Block.confirm] <;>
    split_ifs <;> first | rfl | simp_all

/-- processId acts pointwise: a referenced cell receives one procCell step at
the call depth (repeat visits are absorbed by idempotence), all other cells
are untouched. -/
theorem processId_point_all : ∀ n : Nat,
    (∀ p : Pattern, sizeOf p ≤ n →
      ∀ (d : Int) (proc : IdProcess) (σ : Store) (c : Nat),
        processId p d proc σ c = if c ∈ refs p then procCell proc d (σ c) else σ c)
    ∧ (∀ ps : List Pattern, sizeOf ps ≤ n →
      ∀ (d : Int) (proc : IdProcess) (σ : Store) (c : Nat),
        processIdList ps d proc σ c
          = if c ∈ refsList ps then procCell proc d (σ c) else σ c) := by
  intro n
  induction n using Nat.strong_induction_on with
  | _ n ih =>
    constructor
    · intro p hp d proc σ c
      cases p with
      | lit w => simp [processId, refs]
      | wildcard => simp [processId, refs]
      | meet f => simp [processId, refs]
      | ooo => simp [processId, refs]
      | app f q =>
        have hq : sizeOf q < n := by
          have : sizeOf q < sizeOf (Pattern.app f q) := by simp <;> omega
          omega
        simp only [processId, refs]
        exact (ih _ hq).1 q le_rfl d proc σ c
      | not_ q =>
        have hq : sizeOf q < n := by
          have : sizeOf q < sizeOf (Pattern.not_ q) := by simp <;> omega
          omega
        simp only [processId, refs]
        exact (ih _ hq).1 q le_rfl d proc σ c
      | postCheck q g =>
        have hq : sizeOf q < n := by
          have : sizeOf q < sizeOf (Pattern.postCheck q g) := by simp <;> omega
          omega
        simp only [processId, refs]
        exact (ih _ hq).1 q le_rfl d proc σ c
      | or_ ps =>
        have hps : sizeOf ps < n := by
          have : sizeOf ps < sizeOf (Pattern.or_ ps) := by simp <;> omega
          omega
        simp only [processId, refs]
        exact (ih _ hps).2 ps le_rfl d proc σ c
      | and_ ps =>
        have hps : sizeOf ps < n := by
          have : sizeOf ps < sizeOf (Pattern.and_ ps) := by simp <;> omega
          omega
        simp only [processId, refs]
        exact (ih _ hps).2 ps le_rfl d proc σ c
      | ds ps =>
        have hps : sizeOf ps < n := by
          have : sizeOf ps < sizeOf (Pattern.ds ps) := by simp <;> omega
          omega
        simp only [processId, refs]
        exact (ih _ hps).2 ps le_rfl d proc σ c
      | id c0 =>
        simp only [processId, refs, processIdCell, setCell, List.mem_singleton]
        by_cases hc : c = c0 <;> simp [hc]
      | oooBind c0 =>
        simp only [processId, refs, processIdCell, setCell, List.mem_singleton]
        by_cases hc : c = c0 <;> simp [hc]
    · intro ps hps d proc σ c
      cases ps with
      | nil => simp [processIdList, refsList]
      | cons q qs =>
        have hq : sizeOf q < n := by
          have : sizeOf q < sizeOf (q :: qs) := by simp <;> omega
          omega
        have hqs : sizeOf qs < n := by
          have : sizeOf qs < sizeOf (q :: qs) := by simp <;> omega
          omega
        have e1 := (ih _ hq).1 q le_rfl d proc σ c
        have e2 := (ih _ hqs).2 qs le_rfl d proc (processId q d proc σ) c
        simp only [processIdList]
        rw [e2, e1]
        by_cases h1 : c ∈ refs q <;> by_cases h2 : c ∈ refsList qs <;>
          simp [refsList, List.mem_append, h1, h2, procCell_idem]

theorem processId_apply (p : Pattern) (d : Int) (proc : IdProcess) (σ : Store)
    (c : Nat) :
    processId p d proc σ c = if c ∈ refs p then procCell proc d (σ c) else σ c :=
  (processId_point_all (sizeOf p)).1 p le_rfl d proc σ c

theorem TD_refl (D : Int) (b : Block) : TD D b b := Or.inl rfl

theorem TD_mono {D D2 : Int} {b b2 : Block} (h : D ≤ D2) (ht : TD D2 b b2) :
    TD D b b2 := by
  rcases ht with h1 | h1 | h1
  · exact Or.inl h1
  · exact Or.inr (Or.inl (by omega))
  · exact Or.inr (Or.inr h1)

theorem TD_comp {D : Int} {b b2 b3 : Block} (h1 : TD D b b2) (h2 : TD D b2 b3) :
    TD D b b3 := by
  rcases h1 with e | hd | ⟨hv, hdep, hne⟩
  · rw [e] at h2; exact h2
  · rcases h2 with e | hd2 | ⟨hv2, hdep2, hne2⟩
    · rw [e]; exact Or.inr (Or.inl hd)
    · exact Or.inr (Or.inl hd2)
    · exact Or.inr (Or.inl (by omega))
  · rcases h2 with e | hd2 | ⟨hv2, hdep2, hne2⟩
    · rw [e]; exact Or.inr (Or.inr ⟨hv, hdep, hne⟩)
    · exact Or.inr (Or.inl hd2)
    · exact Or.inr (Or.inr ⟨hv, by omega, hne⟩)

theorem TD_procCell {D δ : Int} (hδ : D ≤ δ) (proc : IdProcess) {b b2 : Block}
    (h : TD D b b2) : TD D b (procCell proc δ b2) := by
  cases proc with
  | kCANCEL =>
    simp only [procCell, Block.reset]
    split_ifs with hc
    · exact Or.inr (Or.inl (by simp <;> omega))
    · exact h
  | kCONFIRM =>
    simp only [procCell, Block.confirm]
    split_ifs with hc
    · exact Or.inr (Or.inl (by simp <;> omega))
    · exact h

/-- One extra processIdCell step at a depth at least D preserves TD. -/
theorem TD_processIdCell (c0 : Nat) {δ D : Int} (hδ : D ≤ δ) (proc : IdProcess)
    (σa : Store) (b : Block) (c : Nat) (h : TD D b (σa c)) :
    TD D b ((processIdCell c0 δ proc σa) c) := by
  unfold processIdCell setCell
  by_cases hc : c = c0
  · subst hc
    simp only [if_pos rfl]
    exact TD_procCell hδ proc h
  · simp only [if_neg hc]
    exact h

/-- The inlined binder step (Id::matchValue followed by processId on the cell
at a depth at least D) is within TD at level D for every cell. -/
theorem TD_oooBindCore (c0 : Nat) (v : Value) (σ : Store) {D δ : Int}
    (hδ : D ≤ δ) :
    ∀ c, TD D (σ c)
      ((processIdCell c0 δ
          (if (Id.matchValueStore c0 v σ).1 then IdProcess.kCONFIRM
            else IdProcess.kCANCEL)
          (Id.matchValueStore c0 v σ).2) c) := by
  intro c
  cases hv : (σ c0).var with
  | some w =>
    simp only [Id.matchValueStore, hv]
    exact TD_processIdCell c0 hδ _ σ (σ c) c (TD_refl D (σ c))
  | none =>
    have hfst : (Id.matchValueStore c0 v σ).1 = true := by
      simp [Id.matchValueStore, hv]
    have hsnd : (Id.matchValueStore c0 v σ).2
        = setCell σ c0 { σ c0 with var := some v } := by
      simp [Id.matchValueStore, hv]
    rw [hfst, hsnd]
    simp only [if_true, processIdCell, setCell]
    by_cases hc : c = c0
    · subst hc
      simp only [if_pos rfl, procCell, Block.confirm]
      by_cases hcond : ({ σ c with var := some v } : Block).dep > δ
          ∨ ({ σ c with var := some v } : Block).dep = 0
      · rw [if_pos hcond]
        exact Or.inr (Or.inl (by simp <;> omega))
      · rw [if_neg hcond]
        refine Or.inr (Or.inr ⟨hv, rfl, ?_⟩)
        intro h0
        exact hcond (Or.inr h0)
    · simp only [if_neg hc]
      exact TD_refl D (σ c)

/-- Both processId steps of the inlined binder (the inner matchPattern on the
Id at depth+1 and the outer one on the binder at depth) stay within TD. -/
theorem TD_oooBindCore2 (c0 : Nat) (v : Value) (σ : Store) (d : Int) :
    ∀ c, TD d (σ c)
      ((processIdCell c0 d
          (if (Id.matchValueStore c0 v σ).1 then IdProcess.kCONFIRM
            else IdProcess.kCANCEL)
          (processIdCell c0 (d + 1)
            (if (Id.matchValueStore c0 v σ).1 then IdProcess.kCONFIRM
              else IdProcess.kCANCEL)
            (Id.matchValueStore c0 v σ).2)) c) := by
  intro c
  exact TD_processIdCell c0 le_rfl _ _ _ c
    (TD_oooBindCore c0 v σ (by omega) c)

theorem refsList_take_subset (ps : List Pattern) :
    ∀ (m : Nat) (c : Nat), c ∈ refsList (ps.take m) → c ∈ refsList ps := by
  induction ps with
  | nil => intro m c h; simpa [List.take_nil] using h
  | cons q qs ih =>
    intro m c h
    cases m with
    | zero => simp [refsList] at h
    | succ m =>
      simp only [List.take_succ_cons, refsList, List.mem_append] at h ⊢
      rcases h with h | h
      · exact Or.inl h
      · exact Or.inr (ih m c h)

theorem refsList_drop_subset (ps : List Pattern) :
    ∀ (m : Nat) (c : Nat), c ∈ refsList (ps.drop m) → c ∈ refsList ps := by
  induction ps with
  | nil => intro m c h; simpa [List.drop_nil] using h
  | cons q qs ih =>
    intro m c h
    cases m with
    | zero => simpa using h
    | succ m =>
      simp only [List.drop_succ_cons] at h
      simp only [refsList, List.mem_append]
      exact Or.inr (ih m c h)

theorem refs_mem_subset (q : Pattern) (ps : List Pattern) (hq : q ∈ ps) :
    ∀ c, c ∈ refs q → c ∈ refsList ps := by
  induction ps with
  | nil => simp at hq
  | cons p ps ih =>
    intro c hc
    simp only [refsList, List.mem_append]
    rcases List.mem_cons.mp hq with h | h
    · subst h; exact Or.inl hc
    · exact Or.inr (ih h c hc)

theorem getD_mem_of_lt (ps : List Pattern) (k : Nat) (dflt : Pattern)
    (h : k < ps.length) : ps.getD k dflt ∈ ps := by
  induction ps generalizing k with
  | nil => simp at h
  | cons p ps ih =>
    cases k with
    | zero => simp
    | succ k =>
      simp only [List.getD_cons_succ]
      exact List.mem_cons_of_mem p (ih k (by simpa using h))

theorem matchPattern_eq (v : Value) (p : Pattern) (d : Int) (σ : Store) :
    matchPattern v p d σ =
      ((matchPatternImpl v p d σ).1,
        processId p d
          (if (matchPatternImpl v p d σ).1 then IdProcess.kCONFIRM
            else IdProcess.kCANCEL)
          (matchPatternImpl v p d σ).2) := by
  simp [matchPattern]

theorem matchOr_cons (v : Value) (q : Pattern) (qs : List Pattern) (d : Int)
    (σ : Store) :
    matchOr v (q :: qs) d σ =
      if (matchPattern v q (d + 1) σ).1 then matchPattern v q (d + 1) σ
      else matchOr v qs d (matchPattern v q (d + 1) σ).2 := by
  simp [matchOr]

theorem matchAnd_cons (v : Value) (q : Pattern) (qs : List Pattern) (d : Int)
    (σ : Store) :
    matchAnd v (q :: qs) d σ =
      if (matchPattern v q (d + 1) σ).1 then matchAnd v qs d (matchPattern v q (d + 1) σ).2
      else (false, (matchPattern v q (d + 1) σ).2) := by
  simp [matchAnd]

theorem matchSeq_cons (w : Value) (ws : List Value) (q : Pattern)
    (qs : List Pattern) (d : Int) (σ : Store) :
    matchSeq (w :: ws) (q :: qs) d σ =
      if (matchPattern w q (d + 1) σ).1 then matchSeq ws qs d (matchPattern w q (d + 1) σ).2
      else (false, (matchPattern w q (d + 1) σ).2) := by
  simp [matchSeq]

/-- matchPattern adds one processId pass over the pattern to
matchPatternImpl; the pass confirms or cancels exactly the referenced cells,
which turns the bare-identifier binding into a TD move as well. -/
theorem MPfact_of_MIfact (p : Pattern) (h : MIfact p) : MPfact p := by
  intro v d σ
  have hi := h v d σ
  rw [matchPattern_eq]
  constructor
  · intro c hc
    simp only
    rw [processId_apply, if_neg hc]
    exact hi.1 c hc
  · intro c
    simp only
    rw [processId_apply]
    by_cases hc : c ∈ refs p
    · rw [if_pos hc]
      rcases hi.2 c with ht | ⟨hv, hdep, hr, hmem⟩
      · exact TD_procCell le_rfl _ ht
      · rw [hr]
        simp only [if_true]
        simp only [procCell, Block.confirm]
        split_ifs with hcond
        · exact Or.inr (Or.inl (by simp <;> omega))
        · refine Or.inr (Or.inr ⟨hv, hdep, ?_⟩)
          intro h0
          exact hcond (Or.inr (by omega))
    · rw [if_neg hc]
      rcases hi.2 c with ht | ⟨_, _, _, hmem⟩
      · exact ht
      · exact absurd hmem hc

/-- The joint frame / TD invariant for the whole matcher, by strong induction
on pattern size. -/
theorem matchT_all : ∀ n : Nat,
    (∀ p : Pattern, sizeOf p ≤ n → MIfact p ∧ MPfact p)
    ∧ (∀ ps : List Pattern, sizeOf ps ≤ n →
        MOfact ps ∧ MAfact ps ∧ MSfact ps ∧ MDfact ps) := by
  intro n
  induction n using Nat.strong_induction_on with
  | _ n ih =>
    have hpat : ∀ p : Pattern, sizeOf p ≤ n → MIfact p ∧ MPfact p := by
      intro p hp
      have hMI : MIfact p := by
        cases p with
        | lit w =>
          intro v d σ
          constructor
          · intro c _
            simp only [matchPatternImpl]
          · intro c
            simp only [matchPatternImpl]
            exact Or.inl (TD_refl d (σ c))
        | wildcard =>
          intro v d σ
          constructor
          · intro c _
            simp only [matchPatternImpl]
          · intro c
            simp only [matchPatternImpl]
            exact Or.inl (TD_refl d (σ c))
        | meet f =>
          intro v d σ
          constructor
          · intro c _
            simp only [matchPatternImpl]
          · intro c
            simp only [matchPatternImpl]
            exact Or.inl (TD_refl d (σ c))
        | ooo =>
          intro v d σ
          constructor
          · intro c _
            simp only [matchPatternImpl]
          · intro c
            simp only [matchPatternImpl]
            exact Or.inl (TD_refl d (σ c))
        | app f q =>
          have hq : sizeOf q < n := by
            have : sizeOf q < sizeOf (Pattern.app f q) := by simp <;> omega
            omega
          have hQ := ((ih _ hq).1 q le_rfl).2
          intro v d σ
          have hQ2 := hQ (f v) (d + 1) σ
          refine ⟨fun c hc => ?_, fun c => ?_⟩
          · simp only [refs] at hc
            simp only [matchPatternImpl]
            exact hQ2.1 c hc
          · simp only [matchPatternImpl]
            exact Or.inl (TD_mono (by omega) (hQ2.2 c))
        | not_ q =>
          have hq : sizeOf q < n := by
            have : sizeOf q < sizeOf (Pattern.not_ q) := by simp <;> omega
            omega
          have hQ := ((ih _ hq).1 q le_rfl).2
          intro v d σ
          have hQ2 := hQ v (d + 1) σ
          refine ⟨fun c hc => ?_, fun c => ?_⟩
          · simp only [refs] at hc
            simp only [matchPatternImpl]
            exact hQ2.1 c hc
          · simp only [matchPatternImpl]
            exact Or.inl (TD_mono (by omega) (hQ2.2 c))
        | postCheck q g =>
          have hq : sizeOf q < n := by
            have : sizeOf q < sizeOf (Pattern.postCheck q g) := by simp <;> omega
            omega
          have hQ := ((ih _ hq).1 q le_rfl).2
          intro v d σ
          have hQ2 := hQ v (d + 1) σ
          refine ⟨fun c hc => ?_, fun c => ?_⟩
          · simp only [refs] at hc
            simp only [matchPatternImpl]
            cases hres : (matchPattern v q (d + 1) σ).1 <;>
              simp only [hres, if_true, Bool.false_eq_true, if_false] <;>
              exact hQ2.1 c hc
          · simp only [matchPatternImpl]
            cases hres : (matchPattern v q (d + 1) σ).1 <;>
              simp only [hres, if_true, Bool.false_eq_true, if_false] <;>
              exact Or.inl (TD_mono (by omega) (hQ2.2 c))
        | or_ ps =>
          have hps : sizeOf ps < n := by
            have : sizeOf ps < sizeOf (Pattern.or_ ps) := by simp <;> omega
            omega
          have hL := ((ih _ hps).2 ps le_rfl).1
          intro v d σ
          refine ⟨fun c hc => ?_, fun c => ?_⟩
          · simp only [refs] at hc
            simp only [matchPatternImpl]
            exact (hL v d σ).1 c hc
          · simp only [matchPatternImpl]
            exact Or.inl ((hL v d σ).2 c)
        | and_ ps =>
          have hps : sizeOf ps < n := by
            have : sizeOf ps < sizeOf (Pattern.and_ ps) := by simp <;> omega
            omega
          have hL := ((ih _ hps).2 ps le_rfl).2.1
          intro v d σ
          refine ⟨fun c hc => ?_, fun c => ?_⟩
          · simp only [refs] at hc
            simp only [matchPatternImpl]
            exact (hL v d σ).1 c hc
          · simp only [matchPatternImpl]
            exact Or.inl ((hL v d σ).2 c)
        | ds ps =>
          have hps : sizeOf ps < n := by
            have : sizeOf ps < sizeOf (Pattern.ds ps) := by simp <;> omega
            omega
          have hL := ((ih _ hps).2 ps le_rfl).2.2.2
          intro v d σ
          refine ⟨fun c hc => ?_, fun c => ?_⟩
          · simp only [refs] at hc
            simp only [matchPatternImpl]
            exact (hL v d σ).1 c hc
          · simp only [matchPatternImpl]
            exact Or.inl ((hL v d σ).2 c)
        | id c0 =>
          intro v d σ
          refine ⟨fun c hc => ?_, fun c => ?_⟩
          · simp only [refs, List.mem_singleton] at hc
            simp only [matchPatternImpl, Id.matchValueStore]
            cases hv : (σ c0).var <;> simp [hv, setCell, hc]
          · simp only [matchPatternImpl, Id.matchValueStore]
            cases hv : (σ c0).var with
            | some w =>
              simp only [hv]
              exact Or.inl (TD_refl d (σ c))
            | none =>
              simp only [hv]
              by_cases hc : c = c0
              · subst hc
                refine Or.inr ⟨hv, ?_, by trivial, by simp [refs]⟩
                simp [setCell]
              · refine Or.inl ?_
                simp only [setCell, if_neg hc]
                exact TD_refl d (σ c)
        | oooBind c0 =>
          intro v d σ
          refine ⟨fun c hc => ?_, fun c => ?_⟩
          · simp only [refs, List.mem_singleton] at hc
            simp only [matchPatternImpl]
            cases hv : (σ c0).var <;>
              simp [hv, Id.matchValueStore, processIdCell, setCell, hc]
          · simp only [matchPatternImpl]
            exact Or.inl (TD_oooBindCore c0 v σ (by omega) c)
      exact ⟨hMI, MPfact_of_MIfact p hMI⟩
    have hMO : ∀ ps : List Pattern, sizeOf ps ≤ n → MOfact ps := by
      intro ps hps
      cases ps with
      | nil =>
        intro v d σ
        constructor
        · intro c _
          simp only [matchOr]
        · intro c
          simp only [matchOr]
          exact TD_refl d (σ c)
      | cons q qs =>
        have hq : sizeOf q ≤ n := by
          have : sizeOf q < sizeOf (q :: qs) := by simp <;> omega
          omega
        have hqs : sizeOf qs < n := by
          have : sizeOf qs < sizeOf (q :: qs) := by simp <;> omega
          omega
        have hQ := (hpat q hq).2
        have hQs := ((ih _ hqs).2 qs le_rfl).1
        intro v d σ
        refine ⟨fun c hc => ?_, fun c => ?_⟩
        · simp only [refsList, List.mem_append] at hc
          push_neg at hc
          rw [matchOr_cons]
          cases hres : (matchPattern v q (d + 1) σ).1 <;>
            simp only [hres, if_true, Bool.false_eq_true, if_false]
          · rw [(hQs v d _).1 c hc.2, (hQ v (d + 1) σ).1 c hc.1]
          · exact (hQ v (d + 1) σ).1 c hc.1
        · rw [matchOr_cons]
          cases hres : (matchPattern v q (d + 1) σ).1 <;>
            simp only [hres, if_true, Bool.false_eq_true, if_false]
          · exact TD_comp (TD_mono (by omega) ((hQ v (d + 1) σ).2 c))
              ((hQs v d _).2 c)
          · exact TD_mono (by omega) ((hQ v (d + 1) σ).2 c)
    have hMA : ∀ ps : List Pattern, sizeOf ps ≤ n → MAfact ps := by
      intro ps hps
      cases ps with
      | nil =>
        intro v d σ
        constructor
        · intro c _
          simp only [matchAnd]
        · intro c
          simp only [matchAnd]
          exact TD_refl d (σ c)
      | cons q qs =>
        have hq : sizeOf q ≤ n := by
          have : sizeOf q < sizeOf (q :: qs) := by simp <;> omega
          omega
        have hqs : sizeOf qs < n := by
          have : sizeOf qs < sizeOf (q :: qs) := by simp <;> omega
          omega
        have hQ := (hpat q hq).2
        have hQs := ((ih _ hqs).2 qs le_rfl).2.1
        intro v d σ
        refine ⟨fun c hc => ?_, fun c => ?_⟩
        · simp only [refsList, List.mem_append] at hc
          push_neg at hc
          rw [matchAnd_cons]
          cases hres : (matchPattern v q (d + 1) σ).1 <;>
            simp only [hres, if_true, Bool.false_eq_true, if_false]
          · exact (hQ v (d + 1) σ).1 c hc.1
          · rw [(hQs v d _).1 c hc.2, (hQ v (d + 1) σ).1 c hc.1]
        · rw [matchAnd_cons]
          cases hres : (matchPattern v q (d + 1) σ).1 <;>
            simp only [hres, if_true, Bool.false_eq_true, if_false]
          · exact TD_mono (by omega) ((hQ v (d + 1) σ).2 c)
          · exact TD_comp (TD_mono (by omega) ((hQ v (d + 1) σ).2 c))
              ((hQs v d _).2 c)
    have hMS : ∀ ps : List Pattern, sizeOf ps ≤ n → MSfact ps := by
      intro ps hps
      cases ps with
      | nil =>
        intro l d σ
        constructor
        · intro c _
          simp only [matchSeq]
        · intro c
          simp only [matchSeq]
          exact TD_refl d (σ c)
      | cons q qs =>
        have hq : sizeOf q ≤ n := by
          have : sizeOf q < sizeOf (q :: qs) := by simp <;> omega
          omega
        have hqs : sizeOf qs < n := by
          have : sizeOf qs < sizeOf (q :: qs) := by simp <;> omega
          omega
        have hQ := (hpat q hq).2
        have hQs := ((ih _ hqs).2 qs le_rfl).2.2.1
        intro l d σ
        cases l with
        | nil =>
          constructor
          · intro c _
            simp only [matchSeq]
          · intro c
            simp only [matchSeq]
            exact TD_refl d (σ c)
        | cons w ws =>
          refine ⟨fun c hc => ?_, fun c => ?_⟩
          · simp only [refsList, List.mem_append] at hc
            push_neg at hc
            rw [matchSeq_cons]
            cases hres : (matchPattern w q (d + 1) σ).1 <;>
              simp only [hres, if_true, Bool.false_eq_true, if_false]
            · exact (hQ w (d + 1) σ).1 c hc.1
            · rw [(hQs ws d _).1 c hc.2, (hQ w (d + 1) σ).1 c hc.1]
          · rw [matchSeq_cons]
            cases hres : (matchPattern w q (d + 1) σ).1 <;>
              simp only [hres, if_true, Bool.false_eq_true, if_false]
            · exact TD_mono (by omega) ((hQ w (d + 1) σ).2 c)
            · exact TD_comp (TD_mono (by omega) ((hQ w (d + 1) σ).2 c))
                ((hQs ws d _).2 c)
    have hMD : ∀ ps : List Pattern, sizeOf ps ≤ n → MDfact ps := by
      intro ps hps v d σ
      cases v with
      | int m =>
        refine ⟨fun c _ => ?_, fun c => ?_⟩ <;> simp only [matchDs]
        exact TD_refl d (σ c)
      | seq l =>
        by_cases h0 : nbOoo ps = 0
        · by_cases hlen : l.length ≠ ps.length
          · refine ⟨fun c _ => ?_, fun c => ?_⟩ <;>
              simp only [matchDs, if_pos h0, if_pos hlen]
            exact TD_refl d (σ c)
          · have hS := hMS ps hps l d σ
            refine ⟨fun c hc => ?_, fun c => ?_⟩ <;>
              simp only [matchDs, if_pos h0, if_neg hlen]
            · exact hS.1 c hc
            · exact hS.2 c
        · by_cases h1 : nbOoo ps = 1
          · by_cases hlen : l.length < ps.length - 1
            · refine ⟨fun c _ => ?_, fun c => ?_⟩ <;>
                simp only [matchDs, if_neg h0, if_pos h1, if_pos hlen]
              exact TD_refl d (σ c)
            · have hS1 := hMS (ps.take (findOooIdx ps))
                (le_trans (sizeOfTakeLe (findOooIdx ps) ps) hps)
                (l.take (findOooIdx ps)) d σ
              have hS2 := hMS (ps.drop (findOooIdx ps + 1))
                (le_trans (sizeOfDropLe (findOooIdx ps + 1) ps) hps)
              have hBframe : ∀ c, c ∉ refsList ps →
                  ((if (matchSeq (l.take (findOooIdx ps))
                        (ps.take (findOooIdx ps)) d σ).1 then
                      matchSeq (l.drop (findOooIdx ps + (l.length + 1 - ps.length)))
                        (ps.drop (findOooIdx ps + 1)) d
                        (matchSeq (l.take (findOooIdx ps))
                          (ps.take (findOooIdx ps)) d σ).2
                    else (false,
                      (matchSeq (l.take (findOooIdx ps))
                        (ps.take (findOooIdx ps)) d σ).2)).2 c)
                    = σ c := by
                intro c hc
                have hctake : c ∉ refsList (ps.take (findOooIdx ps)) :=
                  fun hmem2 => hc (refsList_take_subset ps _ c hmem2)
                have hcdrop : c ∉ refsList (ps.drop (findOooIdx ps + 1)) :=
                  fun hmem2 => hc (refsList_drop_subset ps _ c hmem2)
                cases hres1 : (matchSeq (l.take (findOooIdx ps))
                    (ps.take (findOooIdx ps)) d σ).1 <;>
                  simp only [hres1, if_true, Bool.false_eq_true, if_false]
                · exact hS1.1 c hctake
                · rw [(hS2 _ d _).1 c hcdrop]
                  exact hS1.1 c hctake
              have hBTD : ∀ c, TD d (σ c)
                  ((if (matchSeq (l.take (findOooIdx ps))
                        (ps.take (findOooIdx ps)) d σ).1 then
                      matchSeq (l.drop (findOooIdx ps + (l.length + 1 - ps.length)))
                        (ps.drop (findOooIdx ps + 1)) d
                        (matchSeq (l.take (findOooIdx ps))
                          (ps.take (findOooIdx ps)) d σ).2
                    else (false,
                      (matchSeq (l.take (findOooIdx ps))
                        (ps.take (findOooIdx ps)) d σ).2)).2 c) := by
                intro c
                cases hres1 : (matchSeq (l.take (findOooIdx ps))
                    (ps.take (findOooIdx ps)) d σ).1 <;>
                  simp only [hres1, if_true, Bool.false_eq_true, if_false]
                · exact hS1.2 c
                · exact TD_comp (hS1.2 c) ((hS2 _ d _).2 c)
              cases hg : ps.getD (findOooIdx ps) .ooo with
              | oooBind c0 =>
                have hmem : (Pattern.oooBind c0) ∈ ps := by
                  rw [← hg]
                  exact getD_mem_of_lt ps (findOooIdx ps) .ooo
                    (findOooIdx_lt_length ps h1)
                have hc0 : c0 ∈ refsList ps :=
                  refs_mem_subset _ ps hmem c0 (by simp [refs])
                refine ⟨fun c hc => ?_, fun c => ?_⟩ <;>
                  simp only [matchDs, if_neg h0, if_pos h1, if_neg hlen, hg]
                · have hcne : c ≠ c0 := fun he => hc (he ▸ hc0)
                  have hctake : c ∉ refsList (ps.take (findOooIdx ps)) :=
                    fun hmem2 => hc (refsList_take_subset ps _ c hmem2)
                  have hcdrop : c ∉ refsList (ps.drop (findOooIdx ps + 1)) :=
                    fun hmem2 => hc (refsList_drop_subset ps _ c hmem2)
                  have hbind : (Id.matchValueStore c0
                      (Value.seq ((l.drop (findOooIdx ps)).take
                        (l.length - (ps.length - 1))))
                      (matchSeq (l.take (findOooIdx ps))
                        (ps.take (findOooIdx ps)) d σ).2).2 c
                      = (matchSeq (l.take (findOooIdx ps))
                        (ps.take (findOooIdx ps)) d σ).2 c := by
                    simp only [Id.matchValueStore]
                    cases hv : ((matchSeq (l.take (findOooIdx ps))
                        (ps.take (findOooIdx ps)) d σ).2 c0).var <;>
                      simp [hv, setCell, hcne]
                  cases hres1 : (matchSeq (l.take (findOooIdx ps))
                      (ps.take (findOooIdx ps)) d σ).1 <;>
                    simp only [hres1, if_true, Bool.false_eq_true, if_false]
                  · exact hS1.1 c hctake
                  · cases hr : (Id.matchValueStore c0
                        (Value.seq ((l.drop (findOooIdx ps)).take
                          (l.length - (ps.length - 1))))
                        (matchSeq (l.take (findOooIdx ps))
                          (ps.take (findOooIdx ps)) d σ).2).1 <;>
                      simp only [hr, if_true, Bool.false_eq_true, if_false]
                    · simp only [processIdCell, setCell, if_neg hcne]
                      rw [hbind, hS1.1 c hctake]
                    · rw [(hS2 _ d _).1 c hcdrop]
                      simp only [processIdCell, setCell, if_neg hcne]
                      rw [hbind, hS1.1 c hctake]
                · have hTD1 : TD d (σ c)
                      ((matchSeq (l.take (findOooIdx ps))
                        (ps.take (findOooIdx ps)) d σ).2 c) := hS1.2 c
                  cases hres1 : (matchSeq (l.take (findOooIdx ps))
                      (ps.take (findOooIdx ps)) d σ).1 <;>
                    simp only [hres1, if_true, Bool.false_eq_true, if_false]
                  · exact hTD1
                  · have hstep := TD_oooBindCore2 c0
                      (Value.seq ((l.drop (findOooIdx ps)).take
                        (l.length - (ps.length - 1))))
                      (matchSeq (l.take (findOooIdx ps))
                        (ps.take (findOooIdx ps)) d σ).2 d c
                    have hTD2 := TD_comp hTD1 hstep
                    cases hr : (Id.matchValueStore c0
                        (Value.seq ((l.drop (findOooIdx ps)).take
                          (l.length - (ps.length - 1))))
                        (matchSeq (l.take (findOooIdx ps))
                          (ps.take (findOooIdx ps)) d σ).2).1 <;>
                      simp only [hr, if_true, Bool.false_eq_true, if_false] at hTD2 ⊢
                    · exact hTD2
                    · exact TD_comp hTD2 ((hS2 _ d _).2 c)
              | lit w =>
                refine ⟨fun c hc => ?_, fun c => ?_⟩ <;>
                  simp only [matchDs, if_neg h0, if_pos h1, if_neg hlen, hg]
                · exact hBframe c hc
                · exact hBTD c
              | wildcard =>
                refine ⟨fun c hc => ?_, fun c => ?_⟩ <;>
                  simp only [matchDs, if_neg h0, if_pos h1, if_neg hlen, hg]
                · exact hBframe c hc
                · exact hBTD c
              | meet f =>
                refine ⟨fun c hc => ?_, fun c => ?_⟩ <;>
                  simp only [matchDs, if_neg h0, if_pos h1, if_neg hlen, hg]
                · exact hBframe c hc
                · exact hBTD c
              | app f q =>
                refine ⟨fun c hc => ?_, fun c => ?_⟩ <;>
                  simp only [matchDs, if_neg h0, if_pos h1, if_neg hlen, hg]
                · exact hBframe c hc
                · exact hBTD c
              | or_ qs2 =>
                refine ⟨fun c hc => ?_, fun c => ?_⟩ <;>
                  simp only [matchDs, if_neg h0, if_pos h1, if_neg hlen, hg]
                · exact hBframe c hc
                · exact hBTD c
              | and_ qs2 =>
                refine ⟨fun c hc => ?_, fun c => ?_⟩ <;>
                  simp only [matchDs, if_neg h0, if_pos h1, if_neg hlen, hg]
                · exact hBframe c hc
                · exact hBTD c
              | not_ q =>
                refine ⟨fun c hc => ?_, fun c => ?_⟩ <;>
                  simp only [matchDs, if_neg h0, if_pos h1, if_neg hlen, hg]
                · exact hBframe c hc
                · exact hBTD c
              | id c1 =>
                refine ⟨fun c hc => ?_, fun c => ?_⟩ <;>
                  simp only [matchDs, if_neg h0, if_pos h1, if_neg hlen, hg]
                · exact hBframe c hc
                · exact hBTD c
              | ooo =>
                refine ⟨fun c hc => ?_, fun c => ?_⟩ <;>
                  simp only [matchDs, if_neg h0, if_pos h1, if_neg hlen, hg]
                · exact hBframe c hc
                · exact hBTD c
              | ds qs2 =>
                refine ⟨fun c hc => ?_, fun c => ?_⟩ <;>
                  simp only [matchDs, if_neg h0, if_pos h1, if_neg hlen, hg]
                · exact hBframe c hc
                · exact hBTD c
              | postCheck q g =>
                refine ⟨fun c hc => ?_, fun c => ?_⟩ <;>
                  simp only [matchDs, if_neg h0, if_pos h1, if_neg hlen, hg]
                · exact hBframe c hc
                · exact hBTD c
          · refine ⟨fun c _ => ?_, fun c => ?_⟩ <;>
              simp only [matchDs, if_neg h0, if_neg h1]
            exact TD_refl d (σ c)
    exact ⟨hpat, fun ps hps => ⟨hMO ps hps, hMA ps hps, hMS ps hps, hMD ps hps⟩⟩

theorem matchT_impl (p : Pattern) : MIfact p :=
  ((matchT_all (sizeOf p)).1 p le_rfl).1

theorem matchT_pattern (p : Pattern) : MPfact p :=
  ((matchT_all (sizeOf p)).1 p le_rfl).2

theorem confirm_var (d : Int) (b : Block) : (Block.confirm d b).var = b.var := by
  simp only [Block.confirm]
  split_ifs <;> rfl

theorem reset_clears (d : Int) (b : Block) (h : d ≤ b.dep) :
    Block.reset d b = { var := none, dep := d } := by
  simp only [Block.reset]
  rw [if_pos (by omega)]

theorem reset_skips (d : Int) (b : Block) (h : b.dep < d) :
    Block.reset d b = b := by
  simp only [Block.reset]
  rw [if_neg (by omega)]

theorem confirm_dep_lb (δ : Int) (b : Block) (h : δ ≤ b.dep) :
    δ ≤ (Block.confirm δ b).dep := by
  simp only [Block.confirm]
  split_ifs <;> first | exact le_refl δ | exact h

theorem allEmpty_after_fail (v : Value) (p : Pattern) (σ : Store)
    (h : allEmpty σ) (hres : (matchPattern v p 0 σ).1 = false) :
    allEmpty (matchPattern v p 0 σ).2 := by
  rw [matchPattern_eq] at hres ⊢
  simp only at hres ⊢
  intro c
  rw [processId_apply]
  have hT := (matchT_impl p v 0 σ).2 c
  have hdep : 0 ≤ ((matchPatternImpl v p 0 σ).2 c).dep := by
    rcases hT with ht | ⟨_, hdep, _, _⟩
    · rcases ht with e | h2 | ⟨_, hdep, _⟩
      · rw [e]; exact (h c).2
      · exact h2
      · rw [hdep]; exact (h c).2
    · rw [hdep]; exact (h c).2
  by_cases hc : c ∈ refs p
  · rw [if_pos hc]
    simp only [hres, Bool.false_eq_true, if_false]
    simp only [procCell, Block.reset]
    rw [if_pos (by omega)]
    exact ⟨rfl, le_refl 0⟩
  · rw [if_neg hc]
    rw [(matchT_impl p v 0 σ).1 c hc]
    exact h c

theorem allEmpty_after_cancel (v : Value) (p : Pattern) (σ : Store)
    (h : allEmpty σ) :
    allEmpty (processId p 0 .kCANCEL (matchPattern v p 0 σ).2) := by
  intro c
  rw [processId_apply]
  have hT := (matchT_pattern p v 0 σ).2 c
  have hdep : 0 ≤ ((matchPattern v p 0 σ).2 c).dep := by
    rcases hT with e | h2 | ⟨_, hdep, _⟩
    · rw [e]; exact (h c).2
    · exact h2
    · rw [hdep]; exact (h c).2
  by_cases hc : c ∈ refs p
  · rw [if_pos hc]
    simp only [procCell, Block.reset]
    rw [if_pos (by omega)]
    exact ⟨rfl, le_refl 0⟩
  · rw [if_neg hc]
    rw [(matchT_pattern p v 0 σ).1 c hc]
    exact h c

theorem matchClauses_allEmpty {α : Type} (v : Value) (cls : List (Clause α))
    (σ : Store) (h : allEmpty σ) : allEmpty (matchClauses v cls σ).2.1 := by
  induction cls generalizing σ with
  | nil => simpa [matchClauses] using h
  | cons cl rest ih =>
    simp only [matchClauses]
    cases hres : (matchPattern v cl.pat 0 σ).1 with
    | true =>
      simp only [hres, if_true]
      exact allEmpty_after_cancel v cl.pat σ h
    | false =>
      simp only [hres, Bool.false_eq_true, if_false]
      exact ih _ (allEmpty_after_fail v cl.pat σ h hres)

theorem matchPatterns_snd {α : Type} (v : Value) (cls : List (Clause α))
    (σ : Store) : (matchPatterns v cls σ).2 = (matchClauses v cls σ).2.1 := by
  rcases hm : matchClauses v cls σ with ⟨o, σ2, log⟩
  cases o <;> simp [matchPatterns, hm]

/-- C1: capture hygiene.  Starting from the user-visible entry state (all
identifier cells empty, depths nonnegative), after the clause driver
completes — whether some clause matched or nothing matched and NoMatch was
signalled — every identifier cell referenced by any clause pattern is empty
again. -/
theorem capture_hygiene {α : Type} (v : Value) (cls : List (Clause α))
    (σ : Store) (hσ : ∀ c, (σ c).var = none ∧ 0 ≤ (σ c).dep) :
    ∀ cl ∈ cls, ∀ c ∈ refs cl.pat, ((matchPatterns v cls σ).2 c).var = none := by
  intro cl _ c _
  rw [matchPatterns_snd]
  exact (matchClauses_allEmpty v cls σ hσ c).1

theorem capture_hygiene_inst :
    (∀ c, (((fun _ => Block.init) : Store) c).var = none
        ∧ 0 ≤ (((fun _ => Block.init) : Store) c).dep)
    ∧ ∀ cl ∈ [Clause.mk (Pattern.id 0) (fun _ => (0 : Nat))],
        ∀ c ∈ refs cl.pat,
          ((matchPatterns (Value.int 5)
            [Clause.mk (Pattern.id 0) (fun _ => (0 : Nat))]
            (fun _ => Block.init)).2 c).var = none :=
  ⟨fun _ => ⟨rfl, le_refl 0⟩,
   capture_hygiene (Value.int 5) [Clause.mk (Pattern.id 0) (fun _ => (0 : Nat))]
     (fun _ => Block.init) (fun _ => ⟨rfl, le_refl 0⟩)⟩

/-- C7 (amended): matching not_(P) never leaves an identifier cell referenced
by P bound, whether the not_(P) node succeeds or fails, provided every cell
referenced by P is in the fresh state (empty, recorded depth 0) when the node
is entered and the node depth is nonnegative — in particular for a top-level
match of not_(P) with fresh cells.  Without the entry condition a capture
made inside not_ can survive the node (see the counterexample). -/
theorem not_hides_captures_amended (P : Pattern) (v : Value) (d : Int)
    (σ : Store) (hd : 0 ≤ d) (hcells : ∀ c ∈ refs P, σ c = Block.init) :
    ∀ c ∈ refs P, ((matchPattern v (.not_ P) d σ).2 c).var = none := by
  intro c hc
  have hcb := hcells c hc
  rw [matchPattern_eq]
  simp only
  have himpl : matchPatternImpl v (Pattern.not_ P) d σ
      = (!(matchPattern v P (d + 1) σ).1, (matchPattern v P (d + 1) σ).2) := by
    simp [matchPatternImpl]
  rw [himpl]
  simp only
  have hpid : ∀ (proc : IdProcess) (σx : Store),
      processId (Pattern.not_ P) d proc σx = processId P d proc σx := by
    intro proc σx
    simp [processId]
  rw [hpid, processId_apply, if_pos hc]
  rw [matchPattern_eq]
  simp only
  rw [processId_apply, if_pos hc]
  have hT := (matchT_impl P v (d + 1) σ).2 c
  cases hr : (matchPatternImpl v P (d + 1) σ).1 with
  | false =>
    -- the inner pattern failed, so not_ succeeds: the inner matchPattern
    -- cancelled at depth d+1 and the outer processId confirms at depth d
    simp only [hr, Bool.not_false, Bool.false_eq_true, if_false, if_true]
    simp only [procCell]
    rw [confirm_var]
    rcases hT with ht | ⟨_, _, hfst, _⟩
    · rw [hcb] at ht
      rcases ht with e | hdep | ⟨_, hdep, hne⟩
      · rw [e, reset_skips _ _ (by simp [Block.init] <;> omega)]
        simp [Block.init]
      · rw [reset_clears _ _ (by omega)]
      · exact absurd hne (by simp [Block.init])
    · rw [hr] at hfst
      exact absurd hfst (by simp)
  | true =>
    -- the inner pattern succeeded, so not_ fails: the inner matchPattern
    -- confirmed at depth d+1 and the outer processId cancels at depth d
    simp only [hr, Bool.not_true, Bool.false_eq_true, if_false, if_true]
    simp only [procCell]
    rcases hT with ht | ⟨_, hdep0, _, _⟩
    · rw [hcb] at ht
      rcases ht with e | hdep | ⟨_, hdep, hne⟩
      · rw [e]
        rw [show Block.confirm (d + 1) Block.init = { var := none, dep := d + 1 }
          from by simp [Block.confirm, Block.init]]
        rw [reset_clears _ _ (by simp <;> omega)]
      · rw [reset_clears _ _ (by
          have := confirm_dep_lb (d + 1) ((matchPatternImpl v P (d + 1) σ).2 c)
            (by omega)
          omega)]
      · exact absurd hne (by simp [Block.init])
    · rw [hcb] at hdep0
      simp only [Block.init] at hdep0
      rw [show Block.confirm (d + 1) ((matchPatternImpl v P (d + 1) σ).2 c)
          = { (matchPatternImpl v P (d + 1) σ).2 c with dep := d + 1 }
        from by simp only [Block.confirm]; rw [if_pos (Or.inr hdep0)]]
      rw [reset_clears _ _ (by simp <;> omega)]

theorem not_hides_captures_amended_inst :
    (0 : Int) ≤ 0
    ∧ ∀ c ∈ refs (Pattern.id 0),
        ((matchPattern (Value.int 5) (Pattern.not_ (Pattern.id 0)) 0
          (fun _ => Block.init)).2 c).var = none :=
  ⟨le_refl 0,
   not_hides_captures_amended (Pattern.id 0) (Value.int 5) 0
     (fun _ => Block.init) (le_refl 0) (fun _ _ => rfl)⟩

/-- C7, the claim as frozen is false on the code: at depth 1 with cell 0
empty but carrying recorded depth 1 (a state reachable after an earlier
failed or_ alternative containing the same cell), matching
not_(and_(id 0, meet false)) against 5 succeeds, yet it leaves cell 0 —
referenced by the negated pattern and bound inside it — still bound. -/
theorem not_hides_captures_cex :
    (0 : Nat) ∈ refs (Pattern.and_ [Pattern.id 0, Pattern.meet (fun _ => false)])
    ∧ (matchPattern (Value.int 5)
        (Pattern.not_ (Pattern.and_ [Pattern.id 0, Pattern.meet (fun _ => false)]))
        1 (fun _ => ({ var := none, dep := 1 } : Block))).1 = true
    ∧ ((matchPattern (Value.int 5)
        (Pattern.not_ (Pattern.and_ [Pattern.id 0, Pattern.meet (fun _ => false)]))
        1 (fun _ => ({ var := none, dep := 1 } : Block))).2 0).var
      = some (Value.int 5) := by
  refine ⟨by simp [refs, refsList], ?_, ?_⟩ <;>
    norm_num [matchPattern, matchPatternImpl, matchAnd, processId, processIdList,
      processIdCell, procCell, Block.reset, Block.confirm, Id.matchValueStore,
      setCell]

/-- C4, the claim as frozen is false at the concrete NoMatch scenario of the
spec: the exception message of the source is "Error: no patterns got
matched!", not "no patterns got matched". -/
theorem no_match_message_cex :
    (matchPatterns (Value.int 99)
        [Clause.mk (Pattern.lit (Value.int 1)) (fun _ => (10 : Nat)),
         Clause.mk (Pattern.lit (Value.int 2)) (fun _ => (20 : Nat))]
        (fun _ => Block.init)).1 = .error "Error: no patterns got matched!"
    ∧ (matchPatterns (Value.int 99)
        [Clause.mk (Pattern.lit (Value.int 1)) (fun _ => (10 : Nat)),
         Clause.mk (Pattern.lit (Value.int 2)) (fun _ => (20 : Nat))]
        (fun _ => Block.init)).1 ≠ .error "no patterns got matched" := by
  constructor
  · simp [matchPatterns, matchClauses, matchPattern, matchPatternImpl, Value.beq,
      processId]
  · simp [matchPatterns, matchClauses, matchPattern, matchPatternImpl, Value.beq,
      processId]

end Matchit
